import Mathlib

/-!
Shallow embedding of `vsketch_cli/utils.py`: the sketch script loading and
execution pipeline (working-directory scoping, sketch-class discovery,
deterministic execution with seeding and centering), plus the filename and
config utilities.  Python process state (current working directory, the two
process-wide random sources, the error output channel) is threaded
explicitly through a `World` record; fallible Python code is embedded with
`Except`.
-/

namespace VsketchCli

/-- A filesystem path, as a list of segments (`pathlib.Path`). -/
abbrev Path : Type := List String

/-- A Python exception value (abstracted to its printed representation). -/
abbrev PyErr : Type := String

/-- The process-wide mutable state visible to the code under study:
the current working directory (`os.getcwd`/`os.chdir`), the states of the
two process-wide random sources (`random`, `np.random`; a state is
abstracted as the last seed value, an arbitrary natural), and the error
output channel (`typer.echo(..., err=True)` / `traceback.print_exc`),
modelled as the list of lines printed so far. -/
structure World where
  cwd : Path
  pyRandom : Nat
  npRandom : Nat
  errLog : List String

/-- The `working_directory` context manager: records `prev_cwd = os.getcwd()`,
changes into `path`, runs the body, and `finally:` changes back to
`prev_cwd` — also when the body raises, in which case the exception keeps
propagating (the `Except.error` result is passed through). -/
def working_directory {E α : Type} (path : Path) (body : World → Except E α × World)
    (w : World) : Except E α × World :=
  let prev_cwd := w.cwd
  let res := body { w with cwd := path }
  (res.1, { res.2 with cwd := prev_cwd })

/-- Function `print_error`: prints the styled title followed by the detail string to
the error channel (styling abstracted away). -/
def print_error (title_str detail_str : String) (w : World) : World :=
  { w with errLog := w.errLog ++ [title_str ++ detail_str] }

/-- Call `traceback.print_exc()`: prints the pending exception's diagnostic to
the error channel. -/
def print_exc (e : PyErr) (w : World) : World :=
  { w with errLog := w.errLog ++ [e] }

/-- Modelled from the spec: the vpype `Document` consumed as an opaque
external collaborator (the drawing/document model is not part of this
repository's source).  Per the spec's minimal contract it accumulates
drawn geometry, exposes an optional page size, a bounds query over
committed geometry, and an additive global translation.  Geometry is
modelled as the list of committed points (rational coordinates). -/
structure Document where
  page_size : Option (ℚ × ℚ)
  geometry : List (ℚ × ℚ)

namespace Document

/-- Fold of `min` over a list, from a starting value. -/
def minFrom (a : ℚ) (l : List ℚ) : ℚ := l.foldl min a

/-- Fold of `max` over a list, from a starting value. -/
def maxFrom (a : ℚ) (l : List ℚ) : ℚ := l.foldl max a

/-- Modelled from the spec: `Document.bounds()` returns the bounding box
`(min-x, min-y, max-x, max-y)` of the committed geometry, or nothing when
the document holds no geometry. -/
def bounds (d : Document) : Option (ℚ × ℚ × ℚ × ℚ) :=
  match d.geometry with
  | [] => none
  | p :: ps =>
    some (minFrom p.1 (ps.map Prod.fst), minFrom p.2 (ps.map Prod.snd),
          maxFrom p.1 (ps.map Prod.fst), maxFrom p.2 (ps.map Prod.snd))

/-- Modelled from the spec: `Document.translate(dx, dy)` applies an
additive global translation to all committed geometry. -/
def translate (d : Document) (dx dy : ℚ) : Document :=
  { d with geometry := d.geometry.map fun p => (p.1 + dx, p.2 + dy) }

end Document

/-- Little-endian decimal digits of `n`, computed with structural fuel
(`n` itself bounds the number of division steps).  Auxiliary for
`natStr`. -/
def digitsBelow : Nat → Nat → List Nat
  | 0, _ => []
  | _, 0 => []
  | fuel + 1, n + 1 => ((n + 1) % 10) :: digitsBelow fuel ((n + 1) / 10)

/-- Python's `str(n)` on a non-negative integer: the usual decimal
representation. -/
def natStr (n : Nat) : String :=
  if n = 0 then "0" else ⟨((digitsBelow n n).reverse.map Nat.digitChar)⟩

/-- Helper for `os.path.splitext`: index (from the front) of the last `'.'`
in the character list, if any. -/
def lastDotIdx : List Char → Option Nat
  | [] => none
  | c :: rest =>
    match lastDotIdx rest with
    | some i => some (i + 1)
    | none => if c = '.' then some 0 else none

/-- Function `os.path.splitext(filename)`: splits off the extension that starts at
the last dot, unless every character before that dot is itself a dot
(leading dots, as in `".bashrc"`, do not begin an extension). -/
def splitext (filename : String) : String × String :=
  match lastDotIdx filename.data with
  | none => (filename, "")
  | some i =>
    if (filename.data.take i).all (fun c => c = '.') then (filename, "")
    else (⟨filename.data.take i⟩, ⟨filename.data.drop i⟩)

/-- The candidate file name `base_name + "_" + str(index) + ext` tried by
`find_unique_path`'s loop. -/
def numberedName (base_name ext : String) (index : Nat) : String :=
  base_name ++ "_" ++ natStr index ++ ext

/-- The body of `find_unique_path`'s `while True:` loop, with the mutable
`name` and `index` variables as arguments.  The directory is modelled by
the finite set `dir_path` of file names it currently contains, and
`path.exists()` by membership in that set.  The loop in the source runs
unboundedly; here it carries fuel, with `find_unique_path` supplying
enough fuel that it provably never runs out (`none` is unreachable, see
the termination theorem). -/
def fupLoop (dir_path : Finset String) (base_name ext : String) (always_number : Bool) :
    Nat → String → Nat → Option String
  | 0, _, _ => none
  | fuel + 1, name, index =>
    let name1 := if always_number then base_name ++ "_" ++ natStr index else name
    let path := name1 ++ ext
    if path ∈ dir_path then
      fupLoop dir_path base_name ext always_number fuel
        (if always_number then name1 else base_name ++ "_" ++ natStr index) (index + 1)
    else some path

/-- Function `find_unique_path(filename, dir_path, always_number)`: splits the file
name into base and extension, then scans candidate names — numbered from 1
on every candidate when `always_number`, otherwise the plain name first
and numbered from 2 on collision — returning the first candidate not
present in the directory. -/
def find_unique_path (filename : String) (dir_path : Finset String)
    (always_number : Bool := false) : Option String :=
  let se := splitext filename
  fupLoop dir_path se.1 se.2 always_number (dir_path.card + 1) se.1
    (if always_number then 1 else 2)

/-- Modelled from the spec: one instantiation of a sketch definition (a
`vsketch.Vsketch` object; the `vsketch` package is not under the sources
studied here).  Per the capability contract it carries arbitrary
sketch-local state `ι` (including the two sketch-local random sources),
the boolean `centered` flag, and the accumulating `document`. -/
structure VskInstance (ι : Type) where
  internal : ι
  centered : Bool
  document : Document

/-- Modelled from the spec: a sketch definition (class) satisfying the
capability contract — a no-argument constructor (`new`; `none` models the
dead-code guard `if vsk is None`), the two sketch-local seeding entry
points, a `draw` and a `finalize` procedure (which may read and write the
process-wide state and may raise), and the `__vsketch_cwd__` attribute
optionally attached by the discoverer. -/
structure VsketchClass (ι : Type) where
  new : Option (VskInstance ι)
  randomSeed : Nat → VskInstance ι → VskInstance ι
  noiseSeed : Nat → VskInstance ι → VskInstance ι
  draw : VskInstance ι → World → Except PyErr (VskInstance ι) × World
  finalize : VskInstance ι → World → Except PyErr (VskInstance ι) × World
  vsketch_cwd : Option Path

/-- The sketch-local seeding steps of `execute_sketch`: when a seed is
supplied, `vsk.randomSeed(seed)` then `vsk.noiseSeed(seed)`. -/
def applySeed {ι : Type} (c : VsketchClass ι) (seed : Option Nat) (vsk : VskInstance ι) :
    VskInstance ι :=
  match seed with
  | none => vsk
  | some s => c.noiseSeed s (c.randomSeed s vsk)

/-- The process-wide seeding steps of `execute_sketch`: when a seed is
supplied, `random.seed(seed)` and `np.random.seed(seed)` reset the two
process-wide random sources deterministically from it. -/
def seedWorld (seed : Option Nat) (w : World) : World :=
  match seed with
  | none => w
  | some s => { w with pyRandom := s, npRandom := s }

/-- The body of `execute_sketch`'s `with working_directory(cwd):` block:
instantiate, optionally seed (sketch-local then process-wide), draw, and
optionally finalize.  Exceptions from `draw`/`finalize` are not caught. -/
def runPhase {ι : Type} (c : VsketchClass ι) (seed : Option Nat) (fin : Bool)
    (w : World) : Except PyErr (Option (VskInstance ι)) × World :=
  match c.new with
  | none => (Except.ok none, w)
  | some vsk0 =>
    let vsk1 := applySeed c seed vsk0
    let w1 := seedWorld seed w
    match c.draw vsk1 w1 with
    | (Except.error e, w2) => (Except.error e, w2)
    | (Except.ok vsk2, w2) =>
      if fin then
        match c.finalize vsk2 w2 with
        | (Except.error e, w3) => (Except.error e, w3)
        | (Except.ok vsk3, w3) => (Except.ok (some vsk3), w3)
      else (Except.ok (some vsk2), w2)

/-- The centering step at the end of `execute_sketch`: if the instance is
`centered` and its document has a page size, and the document has bounds,
translate the document so that the bounding box is centered in the page;
otherwise leave the instance untouched. -/
def centerStep {ι : Type} (vsk : VskInstance ι) : VskInstance ι :=
  if vsk.centered then
    match vsk.document.page_size with
    | none => vsk
    | some wh =>
      match vsk.document.bounds with
      | none => vsk
      | some b =>
        { vsk with document :=
            (vsk.document.translate ((wh.1 - (b.2.2.1 - b.1)) / 2 - b.1)
              ((wh.2 - (b.2.2.2 - b.2.1)) / 2 - b.2.1)) }
  else vsk

/-- Function `execute_sketch(sketch_class, seed, finalize)`: returns nothing for a
missing class; otherwise runs instantiation, seeding, draw and finalize
under `working_directory` scoped to the class's attached `__vsketch_cwd__`
(falling back to the current directory), then applies the centering step
outside the scope.  Exceptions from the run propagate as `Except.error`. -/
def execute_sketch {ι : Type} (sketch_class : Option (VsketchClass ι)) (seed : Option Nat)
    (fin : Bool) (w : World) : Except PyErr (Option (VskInstance ι)) × World :=
  match sketch_class with
  | none => (Except.ok none, w)
  | some c =>
    let cwd := c.vsketch_cwd.getD w.cwd
    match working_directory cwd (runPhase c seed fin) w with
    | (Except.error e, w1) => (Except.error e, w1)
    | (Except.ok none, w1) => (Except.ok none, w1)
    | (Except.ok (some vsk), w1) => (Except.ok (some (centerStep vsk)), w1)

/-- A top-level symbol bound by running a sketch script, as seen by the
discoverer: whether it is a class (`inspect.isclass`), whether it is a
subclass of `vsketch.Vsketch` (`issubclass`), and its `__vsketch_cwd__`
attribute. -/
structure PyObj where
  isClass : Bool
  isVsketchSubclass : Bool
  vsketch_cwd : Option Path

/-- The discoverer's test: `inspect.isclass(cls) and issubclass(cls,
vsketch.Vsketch)`. -/
def isSketchSubclass (o : PyObj) : Bool :=
  o.isClass && o.isVsketchSubclass

/-- The `for cls in sketch_scripts.values():` loop of `load_sketch_class`:
the first value satisfying the subclass test, scanning in the script's
top-level binding order. -/
def firstVsketchClass : List PyObj → Option PyObj
  | [] => none
  | o :: rest => if isSketchSubclass o then some o else firstVsketchClass rest

/-- A sketch script file to load: its path, whether that path is a
directory, and the effect of `run_path` on it — running the script from a
given process state yields (or raises) the list of top-level bindings, in
binding order. -/
structure Script where
  path : Path
  pathIsDir : Bool
  run_path : World → Except PyErr (List PyObj) × World

/-- The working directory `load_sketch_class` resolves for a script: the
path itself when it is a directory, else its parent. -/
def scriptCwd (s : Script) : Path :=
  if s.pathIsDir then s.path else s.path.dropLast

/-- Function `load_sketch_class(path)`: runs the script under `working_directory`
scoped to the resolved directory; on any exception prints the traceback
and an error message and returns nothing; otherwise returns the first
top-level binding that is a `vsketch.Vsketch` subclass, with the resolved
directory attached as `__vsketch_cwd__`, or nothing if there is none. -/
def load_sketch_class (s : Script) (w : World) : Option PyObj × World :=
  let cwd_path := scriptCwd s
  match working_directory cwd_path s.run_path w with
  | (Except.error e, w1) =>
    (none, print_error "Could not load script due to previous error." "" (print_exc e w1))
  | (Except.ok sketch_scripts, w1) =>
    match firstVsketchClass sketch_scripts with
    | some cls => (some { cls with vsketch_cwd := some cwd_path }, w1)
    | none => (none, w1)

/-- A JSON value, as produced by `json.load`: the top-level value may be
of any JSON type, not only an object. -/
inductive Json where
  | null : Json
  | bool (b : Bool) : Json
  | num (q : ℚ) : Json
  | str (s : String) : Json
  | arr (items : List Json) : Json
  | obj (fields : List (String × Json)) : Json

/-- The world `execute_sketch`'s scoped block starts from: the current
world with the working directory changed to the class's attached
`__vsketch_cwd__` (falling back to the current working directory). -/
def innerWorld {ι : Type} (c : VsketchClass ι) (w : World) : World :=
  { w with cwd := c.vsketch_cwd.getD w.cwd }

/-- The claim's side condition on a drawing/finalize procedure: it
consumes randomness only through the seeded sources.  Formally, its
result and its effect on the random sources and the working directory
depend only on the instance, the two process-wide random sources and the
working directory — not on any other ambient state. -/
def UsesOnlySeededRandomness {ι : Type}
    (f : VskInstance ι → World → Except PyErr (VskInstance ι) × World) : Prop :=
  ∀ v w w', w.pyRandom = w'.pyRandom → w.npRandom = w'.npRandom → w.cwd = w'.cwd →
    (f v w).1 = (f v w').1 ∧ (f v w).2.pyRandom = (f v w').2.pyRandom ∧
      (f v w).2.npRandom = (f v w').2.npRandom ∧ (f v w).2.cwd = (f v w').2.cwd

/-- A concrete starting world used to instantiate the general theorems. -/
def wBase : World :=
  { cwd := ["home"], pyRandom := 7, npRandom := 8, errLog := [] }

/-- A second concrete world: same working directory as `wBase` but
different random-source states and error log. -/
def wAlt : World :=
  { cwd := ["home"], pyRandom := 99, npRandom := 100, errLog := ["stale"] }

/-- A fresh empty instance used as the constructor result of the concrete
sketch classes below. -/
def emptyInstance : VskInstance Unit :=
  { internal := (), centered := false, document := { page_size := none, geometry := [] } }

/-- A concrete sketch class whose draw procedure records the states of the
two process-wide random sources into the document geometry. -/
def cRand : VsketchClass Unit :=
  { new := some emptyInstance
    randomSeed := fun _ v => v
    noiseSeed := fun _ v => v
    draw := fun v w =>
      (Except.ok { v with document :=
        { page_size := none, geometry := [((w.pyRandom : ℚ), (w.npRandom : ℚ))] } }, w)
    finalize := fun v w => (Except.ok v, w)
    vsketch_cwd := none }

/-- The document produced by the spec's centering example: page size
`(100, 100)` and one shape with bounds `(10,10)-(30,50)`. -/
def exampleDoc : Document :=
  { page_size := some (100, 100), geometry := [(10, 10), (30, 50)] }

/-- A concrete sketch class realizing the spec's centering example:
`centered = True`, page size `(100, 100)`, drawing a shape with bounds
`(10,10)-(30,50)`. -/
def exampleClass : VsketchClass Unit :=
  { new := some { emptyInstance with centered := true }
    randomSeed := fun _ v => v
    noiseSeed := fun _ v => v
    draw := fun v w => (Except.ok { v with document := exampleDoc }, w)
    finalize := fun v w => (Except.ok v, w)
    vsketch_cwd := none }

/-- The instance `exampleClass`'s draw produces, before centering. -/
def exampleInstance : VskInstance Unit :=
  { internal := (), centered := true, document := exampleDoc }

/-- The spec's example instance after the centering translation the code
computes: offsets `(30, 20)`, moving the bounds `(10,10)-(30,50)` to
`(40,30)-(60,70)`. -/
def exampleCentered : VskInstance Unit :=
  { internal := (), centered := true
    document := { page_size := some (100, 100), geometry := [(40, 30), (60, 70)] } }

/-- A concrete sketch class whose draw procedure raises. -/
def cBoom : VsketchClass Unit :=
  { new := some emptyInstance
    randomSeed := fun _ v => v
    noiseSeed := fun _ v => v
    draw := fun _ w => (Except.error "ZeroDivisionError", w)
    finalize := fun v w => (Except.ok v, w)
    vsketch_cwd := none }

/-- A top-level binding that is a `vsketch.Vsketch` subclass. -/
def oSketch : PyObj :=
  { isClass := true, isVsketchSubclass := true, vsketch_cwd := none }

/-- A top-level binding that is a class but not a `vsketch.Vsketch`
subclass. -/
def oPlain : PyObj :=
  { isClass := true, isVsketchSubclass := false, vsketch_cwd := none }

/-- A concrete script binding a sketch class first, then an unrelated
class. -/
def sGood : Script :=
  { path := ["proj", "sketch_a.py"], pathIsDir := false
    run_path := fun w => (Except.ok [oSketch, oPlain], w) }

/-- A concrete script whose top-level code raises. -/
def sBad : Script :=
  { path := ["proj", "sketch_b.py"], pathIsDir := false
    run_path := fun w => (Except.error "SyntaxError: invalid syntax", w) }

/-- Function `load_config(path)`: opens the file, parses its contents with
`json.load`, and returns the parsed value as is — no check that the
top-level value is an object.  `read_file` models `open(path).read()` and
`json_load` models `json.load`; failures of either propagate. -/
def load_config (read_file : Path → Except PyErr String)
    (json_load : String → Except PyErr Json) (path : Path) : Except PyErr Json :=
  match read_file path with
  | Except.error e => Except.error e
  | Except.ok contents => json_load contents

/-- A concrete file system holding one config file whose contents are a
JSON array, not an object. -/
def cfgRead : Path → Except PyErr String :=
  fun p => if p = ["config", "a.json"] then Except.ok "[1]" else Except.error "FileNotFoundError"

/-- A concrete JSON parser fragment: parses `"[1]"` to the array `[1]`. -/
def cfgParse : String → Except PyErr Json :=
  fun s => if s = "[1]" then Except.ok (Json.arr [Json.num 1]) else Except.error "JSONDecodeError"

/-- The candidate file name `find_unique_path`'s loop checks `k` steps
from a collision-only (`always_number = False`) loop state with variables
`name` and `index`: the current name first, then numbered names from
`index` on. -/
def falseCand (b e name : String) (index : Nat) : Nat → String
  | 0 => name ++ e
  | k + 1 => numberedName b e (index + k)

theorem data_append (s t : String) : (s ++ t).data = s.data ++ t.data := by
  cases s
  cases t
  rfl

theorem str_ext {s t : String} (h : s.data = t.data) : s = t := by
  cases s
  cases t
  exact congrArg String.mk h

theorem digitsBelow_eq (fuel n : Nat) (h : n ≤ fuel) : digitsBelow fuel n = Nat.digits 10 n := by
  induction fuel generalizing n with
  | zero =>
    have hn : n = 0 := Nat.le_zero.mp h
    subst hn
    simp [digitsBelow]
  | succ fuel ih =>
    cases n with
    | zero => simp [digitsBelow]
    | succ n =>
      rw [digitsBelow, Nat.digits_def' (by norm_num : (1 : Nat) < 10) (Nat.succ_pos n)]
      have hdiv : (n + 1) / 10 ≤ fuel := by
        have := Nat.div_lt_self (Nat.succ_pos n) (by norm_num : 1 < 10)
        omega
      rw [ih _ hdiv]

theorem digitChar_inj_lt : ∀ a, a < 10 → ∀ b, b < 10 →
    Nat.digitChar a = Nat.digitChar b → a = b := by decide

theorem map_digitChar_cancel : ∀ l1 l2 : List Nat, (∀ d ∈ l1, d < 10) → (∀ d ∈ l2, d < 10) →
    l1.map Nat.digitChar = l2.map Nat.digitChar → l1 = l2 := by
  intro l1
  induction l1 with
  | nil =>
    intro l2 _ _ h
    cases l2 with
    | nil => rfl
    | cons b t => simp at h
  | cons a t ih =>
    intro l2 h1 h2 h
    cases l2 with
    | nil => simp at h
    | cons b t2 =>
      simp only [List.map_cons, List.cons.injEq] at h
      have ha : a < 10 := h1 a (List.mem_cons_self a t)
      have hb : b < 10 := h2 b (List.mem_cons_self b t2)
      have hab : a = b := digitChar_inj_lt a ha b hb h.1
      have ht : t = t2 :=
        ih t2 (fun d hd => h1 d (List.mem_cons_of_mem a hd))
          (fun d hd => h2 d (List.mem_cons_of_mem b hd)) h.2
      rw [hab, ht]

theorem natStr_eq_of_pos {n : Nat} (h : 1 ≤ n) :
    natStr n = ⟨((Nat.digits 10 n).reverse.map Nat.digitChar)⟩ := by
  have hn : n ≠ 0 := by omega
  rw [natStr, if_neg hn, digitsBelow_eq n n (le_refl n)]

theorem natStr_inj_pos {m n : Nat} (hm : 1 ≤ m) (hn : 1 ≤ n) (h : natStr m = natStr n) :
    m = n := by
  rw [natStr_eq_of_pos hm, natStr_eq_of_pos hn] at h
  have hd := congrArg String.data h
  simp only at hd
  have hmem1 : ∀ d ∈ (Nat.digits 10 m).reverse, d < 10 := by
    intro d hdm
    exact Nat.digits_lt_base (by norm_num) (List.mem_reverse.mp hdm)
  have hmem2 : ∀ d ∈ (Nat.digits 10 n).reverse, d < 10 := by
    intro d hdn
    exact Nat.digits_lt_base (by norm_num) (List.mem_reverse.mp hdn)
  have hrev := map_digitChar_cancel _ _ hmem1 hmem2 hd
  have hdig : Nat.digits 10 m = Nat.digits 10 n := List.reverse_injective hrev
  exact Nat.digits_inj_iff.mp hdig

theorem numberedName_inj {b e : String} {i j : Nat} (hi : 1 ≤ i) (hj : 1 ≤ j)
    (h : numberedName b e i = numberedName b e j) : i = j := by
  apply natStr_inj_pos hi hj
  have hd := congrArg String.data h
  simp only [numberedName, data_append, List.append_assoc] at hd
  have h1 := List.append_cancel_left hd
  have h2 := List.append_cancel_left h1
  have h3 := List.append_cancel_right h2
  exact str_ext h3

theorem natStr_data_ne_nil (i : Nat) : (natStr i).data ≠ [] := by
  by_cases hi : i = 0
  · subst hi
    simp [natStr]
  · rw [natStr_eq_of_pos (by omega : 1 ≤ i)]
    intro hcon
    have hl : ((Nat.digits 10 i).reverse.map Nat.digitChar) = [] := hcon
    have hrev : (Nat.digits 10 i).reverse = [] := List.map_eq_nil_iff.mp hl
    have hdig : Nat.digits 10 i = [] := by simpa using hrev
    exact (Nat.digits_ne_nil_iff_ne_zero.mpr hi) hdig

theorem plain_ne_numbered (b e : String) (i : Nat) : b ++ e ≠ numberedName b e i := by
  intro h
  have hd := congrArg (fun s => s.data.length) h
  simp only [numberedName, data_append, List.length_append] at hd
  have hlen : (natStr i).data.length ≠ 0 := by
    intro hz
    exact natStr_data_ne_nil i (List.length_eq_zero.mp hz)
  have hu : ("_" : String).data.length = 1 := rfl
  omega

/-- Claim C2: after any call to the Scoped Directory Context's scope — whether
the caller-supplied body completes normally or raises (the `Except` value
it returns) — the process's working directory equals its value
immediately before the call. -/
theorem working_directory_restores_cwd {E α : Type} (path : Path)
    (body : World → Except E α × World) (w : World) :
    ((working_directory path body w).2).cwd = w.cwd := rfl

theorem fupLoop_not_mem (dir : Finset String) (b e : String) (an : Bool) :
    ∀ fuel name index p, fupLoop dir b e an fuel name index = some p → p ∉ dir := by
  intro fuel
  induction fuel with
  | zero =>
    intro name index p h
    simp [fupLoop] at h
  | succ fuel ih =>
    intro name index p h
    rw [fupLoop] at h
    by_cases hm : ((if an then b ++ "_" ++ natStr index else name) ++ e) ∈ dir
    · rw [if_pos hm] at h
      exact ih _ _ _ h
    · rw [if_neg hm] at h
      have hp := Option.some.inj h
      rw [← hp]
      exact hm

theorem fupLoop_true_some (dir : Finset String) (b e : String) :
    ∀ fuel index name, (∃ k, k < fuel ∧ numberedName b e (index + k) ∉ dir) →
      ∃ p, fupLoop dir b e true fuel name index = some p := by
  intro fuel
  induction fuel with
  | zero =>
    intro index name h
    obtain ⟨k, hk, _⟩ := h
    omega
  | succ fuel ih =>
    intro index name h
    rw [fupLoop]
    have hift : ∀ x y : String, (if (true : Bool) then x else y) = x := fun _ _ => rfl
    rw [hift, hift]
    by_cases hm : ((b ++ "_" ++ natStr index) ++ e) ∈ dir
    · rw [if_pos hm]
      apply ih (index + 1)
      obtain ⟨k, hk, hfree⟩ := h
      cases k with
      | zero => exact absurd hm (by simpa [numberedName, Nat.add_zero] using hfree)
      | succ k =>
        refine ⟨k, by omega, ?_⟩
        have harith : index + 1 + k = index + (k + 1) := by omega
        rw [harith]
        exact hfree
    · rw [if_neg hm]
      exact ⟨_, rfl⟩

theorem fupLoop_false_some (dir : Finset String) (b e : String) :
    ∀ fuel index name, (∃ k, k < fuel ∧ falseCand b e name index k ∉ dir) →
      ∃ p, fupLoop dir b e false fuel name index = some p := by
  intro fuel
  induction fuel with
  | zero =>
    intro index name h
    obtain ⟨k, hk, _⟩ := h
    omega
  | succ fuel ih =>
    intro index name h
    rw [fupLoop]
    have hiff : ∀ x y : String, (if (false : Bool) then x else y) = y := fun _ _ => rfl
    rw [hiff, hiff]
    by_cases hm : (name ++ e) ∈ dir
    · rw [if_pos hm]
      apply ih (index + 1)
      obtain ⟨k, hk, hfree⟩ := h
      cases k with
      | zero => exact absurd hm hfree
      | succ k =>
        refine ⟨k, by omega, ?_⟩
        cases k with
        | zero => simpa [falseCand, numberedName] using hfree
        | succ k =>
          have harith : index + 1 + k = index + (k + 1) := by omega
          simpa [falseCand, harith] using hfree
    · rw [if_neg hm]
      exact ⟨_, rfl⟩

theorem exists_fresh_numbered (dir : Finset String) (b e : String) (index : Nat)
    (hidx : 1 ≤ index) : ∃ k, k ≤ dir.card ∧ numberedName b e (index + k) ∉ dir := by
  by_contra hc
  push_neg at hc
  have hmap : ∀ k ∈ Finset.range (dir.card + 1), numberedName b e (index + k) ∈ dir := by
    intro k hk
    exact hc k (Nat.lt_succ_iff.mp (Finset.mem_range.mp hk))
  have hinj : Set.InjOn (fun k => numberedName b e (index + k))
      (Finset.range (dir.card + 1) : Finset Nat) := by
    intro k1 _ k2 _ h
    have := numberedName_inj (by omega : 1 ≤ index + k1) (by omega : 1 ≤ index + k2) h
    omega
  have hcard := Finset.card_le_card_of_injOn (fun k => numberedName b e (index + k)) hmap hinj
  simp [Finset.card_range] at hcard

theorem exists_fresh_falseCand (dir : Finset String) (b e : String) :
    ∃ k, k ≤ dir.card ∧ falseCand b e b 2 k ∉ dir := by
  by_contra hc
  push_neg at hc
  have hmap : ∀ k ∈ Finset.range (dir.card + 1), falseCand b e b 2 k ∈ dir := by
    intro k hk
    exact hc k (Nat.lt_succ_iff.mp (Finset.mem_range.mp hk))
  have hinj : Set.InjOn (fun k => falseCand b e b 2 k)
      (Finset.range (dir.card + 1) : Finset Nat) := by
    intro k1 _ k2 _ h
    cases k1 with
    | zero =>
      cases k2 with
      | zero => rfl
      | succ k2 => exact absurd h (plain_ne_numbered b e (2 + k2))
    | succ k1 =>
      cases k2 with
      | zero => exact absurd h.symm (plain_ne_numbered b e (2 + k1))
      | succ k2 =>
        have := numberedName_inj (by omega : 1 ≤ 2 + k1) (by omega : 1 ≤ 2 + k2) h
        omega
  have hcard := Finset.card_le_card_of_injOn (fun k => falseCand b e b 2 k) hmap hinj
  simp [Finset.card_range] at hcard

/-- Claim C9: for every filename and (finite) directory state, in both modes,
`find_unique_path` terminates with a result (the loop's fuel provably
never runs out) and the returned path does not exist in the directory. -/
theorem find_unique_path_fresh (filename : String) (dir : Finset String) (an : Bool) :
    ∃ p, find_unique_path filename dir an = some p ∧ p ∉ dir := by
  rw [find_unique_path]
  cases an with
  | true =>
    obtain ⟨k, hk, hfree⟩ := exists_fresh_numbered dir (splitext filename).1
      (splitext filename).2 1 (le_refl 1)
    obtain ⟨p, hp⟩ := fupLoop_true_some dir (splitext filename).1 (splitext filename).2
      (dir.card + 1) 1 (splitext filename).1 ⟨k, by omega, hfree⟩
    exact ⟨p, hp, fupLoop_not_mem dir _ _ _ _ _ _ p hp⟩
  | false =>
    obtain ⟨k, hk, hfree⟩ := exists_fresh_falseCand dir (splitext filename).1
      (splitext filename).2
    obtain ⟨p, hp⟩ := fupLoop_false_some dir (splitext filename).1 (splitext filename).2
      (dir.card + 1) 2 (splitext filename).1 ⟨k, by omega, hfree⟩
    exact ⟨p, hp, fupLoop_not_mem dir _ _ _ _ _ _ p hp⟩

/-- Claim C5: `find_unique_path("sketch.svg", dir)` returns the unsuffixed
name in collision-only mode when it is free, the `_1`-suffixed name in
always-numbered mode even when nothing collides, and the `_2`-suffixed
name in collision-only mode when the unsuffixed name is taken —
always-numbered suffixes start at 1 and apply even to the first
candidate, collision-only retries start at 2. -/
theorem find_unique_path_modes (dir : Finset String) :
    ("sketch.svg" ∉ dir → find_unique_path "sketch.svg" dir false = some "sketch.svg")
    ∧ ("sketch_1.svg" ∉ dir → find_unique_path "sketch.svg" dir true = some "sketch_1.svg")
    ∧ ("sketch.svg" ∈ dir → "sketch_2.svg" ∉ dir →
        find_unique_path "sketch.svg" dir false = some "sketch_2.svg") := by
  have hse : splitext "sketch.svg" = ("sketch", ".svg") := by decide
  have hiff : ∀ {γ : Type} (x y : γ), (if (false : Bool) then x else y) = y := fun _ _ => rfl
  have hift : ∀ {γ : Type} (x y : γ), (if (true : Bool) then x else y) = x := fun _ _ => rfl
  have hn0 : ("sketch" ++ ".svg" : String) = "sketch.svg" := by decide
  have hn1 : (("sketch" ++ "_" ++ natStr 1) ++ ".svg" : String) = "sketch_1.svg" := by decide
  have hn2 : (("sketch" ++ "_" ++ natStr 2) ++ ".svg" : String) = "sketch_2.svg" := by decide
  refine ⟨?_, ?_, ?_⟩
  · intro h1
    rw [find_unique_path, hse, fupLoop]
    simp only [hiff]
    rw [hn0, if_neg h1]
  · intro h2
    rw [find_unique_path, hse, fupLoop]
    simp only [hift, if_true]
    rw [hn1, if_neg h2]
  · intro h3 h4
    rw [find_unique_path, hse, fupLoop]
    simp only [hiff]
    rw [hn0, if_pos h3]
    have hcard : 0 < dir.card := Finset.card_pos.mpr ⟨_, h3⟩
    obtain ⟨m, hm⟩ : ∃ m, dir.card = m + 1 := ⟨dir.card - 1, by omega⟩
    rw [hm, fupLoop]
    simp only [hiff]
    rw [hn2, if_neg h4]

theorem find_unique_path_modes_witness :
    find_unique_path "sketch.svg" (∅ : Finset String) false = some "sketch.svg"
    ∧ find_unique_path "sketch.svg" (∅ : Finset String) true = some "sketch_1.svg"
    ∧ find_unique_path "sketch.svg" ({"sketch.svg"} : Finset String) false =
        some "sketch_2.svg" :=
  ⟨(find_unique_path_modes ∅).1 (by decide),
   (find_unique_path_modes ∅).2.1 (by decide),
   (find_unique_path_modes {"sketch.svg"}).2.2 (by decide) (by decide)⟩

theorem minFrom_map_add (c : ℚ) : ∀ (l : List ℚ) (a : ℚ),
    Document.minFrom (a + c) (l.map (fun x => x + c)) = Document.minFrom a l + c := by
  intro l
  induction l with
  | nil => intro a; rfl
  | cons x t ih =>
    intro a
    simp only [List.map_cons, Document.minFrom, List.foldl_cons] at *
    rw [min_add_add_right]
    exact ih (min a x)

theorem maxFrom_map_add (c : ℚ) : ∀ (l : List ℚ) (a : ℚ),
    Document.maxFrom (a + c) (l.map (fun x => x + c)) = Document.maxFrom a l + c := by
  intro l
  induction l with
  | nil => intro a; rfl
  | cons x t ih =>
    intro a
    simp only [List.map_cons, Document.maxFrom, List.foldl_cons] at *
    rw [max_add_add_right]
    exact ih (max a x)

theorem bounds_translate (d : Document) (dx dy : ℚ) :
    (d.translate dx dy).bounds = d.bounds.map
      (fun b => (b.1 + dx, b.2.1 + dy, b.2.2.1 + dx, b.2.2.2 + dy)) := by
  rcases d with ⟨ps, g⟩
  cases g with
  | nil => simp [Document.translate, Document.bounds]
  | cons p t =>
    simp only [Document.translate, Document.bounds, List.map_cons, Option.map_some]
    have hx : (t.map (fun q : ℚ × ℚ => (q.1 + dx, q.2 + dy))).map Prod.fst =
        (t.map Prod.fst).map (fun x => x + dx) := by
      simp [List.map_map, Function.comp]
    have hy : (t.map (fun q : ℚ × ℚ => (q.1 + dx, q.2 + dy))).map Prod.snd =
        (t.map Prod.snd).map (fun x => x + dy) := by
      simp [List.map_map, Function.comp]
    rw [hx, hy, minFrom_map_add, minFrom_map_add, maxFrom_map_add, maxFrom_map_add]
    simp

theorem centerStep_noop {ι : Type} (v : VskInstance ι)
    (h : v.centered = false ∨ v.document.page_size = none ∨ v.document.bounds = none) :
    centerStep v = v := by
  unfold centerStep
  rcases h with h | h | h
  · rw [h]
    rfl
  · cases hc : v.centered
    · rfl
    · rw [h]
      rfl
  · cases hc : v.centered
    · rfl
    · cases hps : v.document.page_size
      · rfl
      · rw [h]
        rfl

theorem centerStep_translates {ι : Type} (v : VskInstance ι) (W H mnx mny mxx mxy : ℚ)
    (hc : v.centered = true) (hps : v.document.page_size = some (W, H))
    (hb : v.document.bounds = some (mnx, mny, mxx, mxy)) :
    centerStep v = { v with document :=
      (v.document.translate ((W - (mxx - mnx)) / 2 - mnx) ((H - (mxy - mny)) / 2 - mny)) } := by
  unfold centerStep
  rw [hc, hps, hb]
  rfl

/-- Claim C3: when the scoped run phase of `execute_sketch` produces an
instance, the returned instance is that instance with the centering step
applied; the centering step is a no-op whenever `centered` is false, or
the page size is undefined, or the bounds are undefined; otherwise it
translates the document by exactly `offset_x = (page_width − bbox_width)/2
− bbox_min_x` and `offset_y = (page_height − bbox_height)/2 − bbox_min_y`,
which aligns the bounding box's center with the page's center. -/
theorem execute_sketch_centering {ι : Type} (c : VsketchClass ι) (seed : Option Nat)
    (F : Bool) (w : World) (v : VskInstance ι) (w1 : World)
    (h : runPhase c seed F (innerWorld c w) = (Except.ok (some v), w1)) :
    (execute_sketch (some c) seed F w).1 = Except.ok (some (centerStep v))
    ∧ ((v.centered = false ∨ v.document.page_size = none ∨ v.document.bounds = none) →
        centerStep v = v)
    ∧ (∀ W H mnx mny mxx mxy : ℚ, v.centered = true → v.document.page_size = some (W, H) →
        v.document.bounds = some (mnx, mny, mxx, mxy) →
        (centerStep v).document =
          v.document.translate ((W - (mxx - mnx)) / 2 - mnx) ((H - (mxy - mny)) / 2 - mny)
        ∧ (centerStep v).document.bounds =
          some (mnx + ((W - (mxx - mnx)) / 2 - mnx), mny + ((H - (mxy - mny)) / 2 - mny),
            mxx + ((W - (mxx - mnx)) / 2 - mnx), mxy + ((H - (mxy - mny)) / 2 - mny))
        ∧ (mnx + ((W - (mxx - mnx)) / 2 - mnx) + (mxx + ((W - (mxx - mnx)) / 2 - mnx))) / 2 =
          W / 2
        ∧ (mny + ((H - (mxy - mny)) / 2 - mny) + (mxy + ((H - (mxy - mny)) / 2 - mny))) / 2 =
          H / 2) := by
  refine ⟨?_, centerStep_noop v, ?_⟩
  · have h' : runPhase c seed F { w with cwd := c.vsketch_cwd.getD w.cwd } =
        (Except.ok (some v), w1) := h
    simp only [execute_sketch, working_directory]
    rw [h']
  · intro W H mnx mny mxx mxy hc hps hb
    have hTr := centerStep_translates v W H mnx mny mxx mxy hc hps hb
    have hdoc : (centerStep v).document =
        v.document.translate ((W - (mxx - mnx)) / 2 - mnx) ((H - (mxy - mny)) / 2 - mny) := by
      rw [hTr]
    refine ⟨hdoc, ?_, by ring, by ring⟩
    rw [hdoc, bounds_translate, hb]
    rfl

theorem execute_sketch_centering_witness :
    (execute_sketch (some exampleClass) none false wBase).1 =
      Except.ok (some (centerStep exampleInstance)) :=
  (execute_sketch_centering exampleClass none false wBase exampleInstance
    (innerWorld exampleClass wBase) rfl).1

theorem centerStep_example : centerStep exampleInstance = exampleCentered := by
  rw [centerStep_translates exampleInstance 100 100 10 10 30 50 rfl rfl (by decide)]
  simp [exampleInstance, exampleCentered, exampleDoc, Document.translate]
  norm_num

theorem execute_example : (execute_sketch (some exampleClass) none false wBase).1 =
    Except.ok (some (centerStep exampleInstance)) := by
  simp only [execute_sketch, working_directory]
  rw [show runPhase exampleClass none false
    { wBase with cwd := exampleClass.vsketch_cwd.getD wBase.cwd } =
    (Except.ok (some exampleInstance),
      { wBase with cwd := exampleClass.vsketch_cwd.getD wBase.cwd }) from rfl]

/-- Claim C4 counterexample: executing the spec's example (centered, page
`(100, 100)`, shape bounds `(10,10)-(30,50)`) yields a document whose
shape occupies `(40,30)-(60,70)`, not `(35,25)-(55,65)` as the claim
states. -/
theorem centering_example_cex :
    (execute_sketch (some exampleClass) none false wBase).1 = Except.ok (some exampleCentered)
    ∧ exampleCentered.document.bounds = some (40, 30, 60, 70)
    ∧ exampleCentered.document.bounds ≠ some (35, 25, 55, 65) := by
  refine ⟨?_, by decide, by decide⟩
  rw [execute_example, centerStep_example]

/-- Claim C4 (amended): a sketch instance with `centered = True`, page size
`(100, 100)`, and a drawn shape with bounds `(10,10)-(30,50)` executes to
a Document in which that shape occupies `(40,30)-(60,70)` after the
centering translation. -/
theorem centering_example_amended :
    (execute_sketch (some exampleClass) none false wBase).1 = Except.ok (some exampleCentered)
    ∧ exampleCentered.document.bounds = some (40, 30, 60, 70) := by
  refine ⟨?_, by decide⟩
  rw [execute_example, centerStep_example]

/-- Claim C1: for every sketch class whose draw and finalize consume
randomness only through the seeded sources, two runs of `execute_sketch`
with the same supplied seed — from arbitrary prior states of the
process-wide random sources — produce identical results, in particular
bit-for-bit identical document geometry. -/
theorem execute_sketch_deterministic {ι : Type} (c : VsketchClass ι) (S : Nat) (F : Bool)
    (w1 w2 : World) (hd : UsesOnlySeededRandomness c.draw)
    (hf : UsesOnlySeededRandomness c.finalize) (hcwd : w1.cwd = w2.cwd) :
    (execute_sketch (some c) (some S) F w1).1 = (execute_sketch (some c) (some S) F w2).1 := by
  have hgd : c.vsketch_cwd.getD w1.cwd = c.vsketch_cwd.getD w2.cwd := by rw [hcwd]
  have hrp : (runPhase c (some S) F { w1 with cwd := c.vsketch_cwd.getD w1.cwd }).1 =
      (runPhase c (some S) F { w2 with cwd := c.vsketch_cwd.getD w2.cwd }).1 := by
    unfold runPhase
    cases hnew : c.new with
    | none => rfl
    | some v0 =>
      simp only []
      have hdr := hd (applySeed c (some S) v0)
        (seedWorld (some S) { w1 with cwd := c.vsketch_cwd.getD w1.cwd })
        (seedWorld (some S) { w2 with cwd := c.vsketch_cwd.getD w2.cwd })
        rfl rfl (by simpa [seedWorld] using hgd)
      rcases hA : c.draw (applySeed c (some S) v0)
        (seedWorld (some S) { w1 with cwd := c.vsketch_cwd.getD w1.cwd }) with ⟨r1, u1⟩
      rcases hB : c.draw (applySeed c (some S) v0)
        (seedWorld (some S) { w2 with cwd := c.vsketch_cwd.getD w2.cwd }) with ⟨r2, u2⟩
      rw [hA, hB] at hdr
      obtain ⟨hr, hpy, hnp, hcw⟩ := hdr
      have hr2 : r1 = r2 := hr
      subst hr2
      cases r1 with
      | error e => rfl
      | ok v2 =>
        cases F with
        | false => rfl
        | true =>
          have hpy2 : u1.pyRandom = u2.pyRandom := hpy
          have hnp2 : u1.npRandom = u2.npRandom := hnp
          have hcw2 : u1.cwd = u2.cwd := hcw
          have hfr := hf v2 u1 u2 hpy2 hnp2 hcw2
          rcases hC : c.finalize v2 u1 with ⟨q1, t1⟩
          rcases hD : c.finalize v2 u2 with ⟨q2, t2⟩
          rw [hC, hD] at hfr
          have hq : q1 = q2 := hfr.1
          subst hq
          simp only [hC, hD]
          cases q1 with
          | error e => rfl
          | ok v3 => rfl
  simp only [execute_sketch, working_directory]
  rcases hA : runPhase c (some S) F { w1 with cwd := c.vsketch_cwd.getD w1.cwd } with ⟨r1, o1⟩
  rcases hB : runPhase c (some S) F { w2 with cwd := c.vsketch_cwd.getD w2.cwd } with ⟨r2, o2⟩
  rw [hA, hB] at hrp
  have hr : r1 = r2 := hrp
  subst hr
  cases r1 with
  | error e => rfl
  | ok vo =>
    cases vo with
    | none => rfl
    | some v => rfl

theorem execute_sketch_deterministic_witness :
    (execute_sketch (some cRand) (some 5) false wBase).1 =
      (execute_sketch (some cRand) (some 5) false wAlt).1 :=
  execute_sketch_deterministic cRand 5 false wBase wAlt
    (fun _ w w' hpy hnp hcw =>
      ⟨by simp [cRand, hpy, hnp], by simpa [cRand] using hpy,
       by simpa [cRand] using hnp, by simpa [cRand] using hcw⟩)
    (fun _ w w' hpy hnp hcw =>
      ⟨by simp [cRand], by simpa [cRand] using hpy,
       by simpa [cRand] using hnp, by simpa [cRand] using hcw⟩)
    rfl

/-- Claim C8: `execute_sketch` does not catch exceptions raised by the draw or
finalize procedures — when the seeded instance's draw raises, or its draw
succeeds and its finalize raises, the same exception is the result of
`execute_sketch`. -/
theorem execute_sketch_propagates {ι : Type} (c : VsketchClass ι) (seed : Option Nat)
    (F : Bool) (w : World) (v0 : VskInstance ι) (h0 : c.new = some v0) :
    (∀ e w2, c.draw (applySeed c seed v0) (seedWorld seed (innerWorld c w)) =
        (Except.error e, w2) → (execute_sketch (some c) seed F w).1 = Except.error e)
    ∧ (∀ v2 w2 e w3, c.draw (applySeed c seed v0) (seedWorld seed (innerWorld c w)) =
        (Except.ok v2, w2) → c.finalize v2 w2 = (Except.error e, w3) →
        (execute_sketch (some c) seed true w).1 = Except.error e) := by
  constructor
  · intro e w2 hdraw
    have hdraw' : c.draw (applySeed c seed v0)
        (seedWorld seed { w with cwd := c.vsketch_cwd.getD w.cwd }) = (Except.error e, w2) :=
      hdraw
    simp only [execute_sketch, working_directory, runPhase, h0, hdraw']
  · intro v2 w2 e w3 hdraw hfin
    have hdraw' : c.draw (applySeed c seed v0)
        (seedWorld seed { w with cwd := c.vsketch_cwd.getD w.cwd }) = (Except.ok v2, w2) :=
      hdraw
    simp only [execute_sketch, working_directory, runPhase, h0, hdraw', if_true, hfin]

theorem execute_sketch_propagates_witness :
    (execute_sketch (some cBoom) none false wBase).1 = Except.error "ZeroDivisionError" :=
  (execute_sketch_propagates cBoom none false wBase emptyInstance rfl).1
    "ZeroDivisionError" (seedWorld none (innerWorld cBoom wBase)) rfl

theorem firstVsketchClass_eq_none (l : List PyObj)
    (h : ∀ o ∈ l, isSketchSubclass o = false) : firstVsketchClass l = none := by
  induction l with
  | nil => rfl
  | cons o t ih =>
    rw [firstVsketchClass, h o (List.mem_cons_self o t)]
    exact ih (fun o' ho' => h o' (List.mem_cons_of_mem o ho'))

theorem firstVsketchClass_eq_some (l : List PyObj) :
    ∀ (i : Nat) (o : PyObj), l[i]? = some o → isSketchSubclass o = true →
      (∀ j : Nat, j < i → ∀ o', l[j]? = some o' → isSketchSubclass o' = false) →
      firstVsketchClass l = some o := by
  induction l with
  | nil =>
    intro i o hget
    simp at hget
  | cons a t ih =>
    intro i o hget hsk hprior
    cases i with
    | zero =>
      have ha : a = o := by simpa using hget
      subst ha
      rw [firstVsketchClass, hsk]
      rfl
    | succ i =>
      have ha : isSketchSubclass a = false := hprior 0 (Nat.succ_pos i) a (by simp)
      rw [firstVsketchClass, ha]
      exact ih i o (by simpa using hget) hsk
        (fun j hj o' hj' => hprior (j + 1) (by omega) o' (by simpa using hj'))

/-- Claim C6: when the script runs successfully, `load_sketch_class` returns
the FIRST top-level binding, in binding order, that satisfies the sketch
subclass test, with the resolved context directory attached to it as
`__vsketch_cwd__`; when no binding satisfies the test it returns nothing,
without reporting any error. -/
theorem load_sketch_class_first_match (s : Script) (w : World) (objs : List PyObj)
    (w1 : World) (h : s.run_path { w with cwd := scriptCwd s } = (Except.ok objs, w1)) :
    ((∀ o ∈ objs, isSketchSubclass o = false) →
        (load_sketch_class s w).1 = none
        ∧ ((load_sketch_class s w).2).errLog = w1.errLog)
    ∧ (∀ (i : Nat) (o : PyObj), objs[i]? = some o → isSketchSubclass o = true →
        (∀ j : Nat, j < i → ∀ o', objs[j]? = some o' → isSketchSubclass o' = false) →
        (load_sketch_class s w).1 = some { o with vsketch_cwd := some (scriptCwd s) }) := by
  constructor
  · intro hnone
    have hfc := firstVsketchClass_eq_none objs hnone
    constructor
    · simp only [load_sketch_class, working_directory, h, hfc]
    · simp only [load_sketch_class, working_directory, h, hfc]
  · intro i o hget hsk hprior
    have hfc := firstVsketchClass_eq_some objs i o hget hsk hprior
    simp only [load_sketch_class, working_directory, h, hfc]

theorem load_sketch_class_first_match_witness :
    (load_sketch_class sGood wBase).1 =
      some { oSketch with vsketch_cwd := some (scriptCwd sGood) } :=
  (load_sketch_class_first_match sGood wBase [oSketch, oPlain]
      { wBase with cwd := scriptCwd sGood } rfl).2 0 oSketch rfl rfl
    (fun j hj => absurd hj (Nat.not_lt_zero j))

/-- Claim C7: when running the script raises any exception, `load_sketch_class`
catches it, reports the traceback and an error message on the error
channel, and returns nothing; the function is total, so no exception
propagates out of it. -/
theorem load_sketch_class_catches (s : Script) (w : World) (e : PyErr) (w1 : World)
    (h : s.run_path { w with cwd := scriptCwd s } = (Except.error e, w1)) :
    (load_sketch_class s w).1 = none
    ∧ ((load_sketch_class s w).2).errLog =
        w1.errLog ++ [e, "Could not load script due to previous error."] := by
  constructor
  · simp only [load_sketch_class, working_directory, h, print_error, print_exc]
  · simp [load_sketch_class, working_directory, h, print_error, print_exc]

theorem load_sketch_class_catches_witness :
    (load_sketch_class sBad wBase).1 = none :=
  (load_sketch_class_catches sBad wBase "SyntaxError: invalid syntax"
    { wBase with cwd := scriptCwd sBad } rfl).1

/-- Claim C10: `load_config` returns exactly the value produced by JSON-parsing
the file's contents, whatever its top-level type — no check that the
parsed value is an object is performed, so an array or scalar top-level
value is returned as that value rather than causing an error. -/
theorem load_config_returns_parsed (read_file : Path → Except PyErr String)
    (json_load : String → Except PyErr Json) (path : Path) (s : String) (v : Json)
    (hr : read_file path = Except.ok s) (hp : json_load s = Except.ok v) :
    load_config read_file json_load path = Except.ok v := by
  simp only [load_config, hr, hp]

theorem load_config_returns_parsed_witness :
    load_config cfgRead cfgParse ["config", "a.json"] = Except.ok (Json.arr [Json.num 1]) :=
  load_config_returns_parsed cfgRead cfgParse ["config", "a.json"] "[1]"
    (Json.arr [Json.num 1]) rfl rfl

end VsketchCli
